import Mathlib

/-!
Verification of the SSE (Server-Sent-Events) parsing pipeline of the
sourcegraph/openapi example client:

* `parseSSE` embeds `parseSSE` from
  `examples/typescript-5.7-cody-client/sse.ts`;
* `commitResultsOf` embeds the result-filter loop of `searchCommits` in
  `examples/typescript-5.7-cody-client/search.ts` (lines 75-89).

JavaScript strings are modelled as `List Char` (`Str`).  The JavaScript
builtin `JSON.parse` is external to the repository; `parseSSE` is
parameterised over a partial JSON-decoding function `pj : Str → Option Json`
(`none` models a thrown `SyntaxError`).  JSON values are modelled by the
inductive type `Json`; `Json.truthy` captures JavaScript truthiness of a
value produced by `JSON.parse` (falsy values: `null`, `false`, `0`, `""`).
-/

/-- JavaScript strings, modelled as lists of characters. -/
abbrev Str := List Char

/-- JSON values (numbers restricted to integers, which suffices for the
payloads considered here). -/
inductive Json where
  | null : Json
  | bool : Bool → Json
  | num : Int → Json
  | str : Str → Json
  | arr : List Json → Json
  | obj : List (Str × Json) → Json

/-- JavaScript truthiness of a value obtainable from `JSON.parse`:
`null`, `false`, `0` and the empty string are falsy; every array and
object is truthy. -/
def Json.truthy : Json → Bool
  | .null => false
  | .bool b => b
  | .num n => n != 0
  | .str s => s != []
  | .arr _ => true
  | .obj _ => true

/-- JS `s.split("\n")`: split on the newline character, keeping empty
segments; the empty string splits to `[""]`. -/
def splitNl : Str → List Str
  | [] => [[]]
  | c :: cs =>
      if c = '\n' then
        [] :: splitNl cs
      else
        match splitNl cs with
        | l :: ls => (c :: l) :: ls
        | [] => [[c]]

/-- JS `s.trim()`: strip leading and trailing whitespace (space, tab,
carriage return, newline). -/
def jsTrim (s : Str) : Str :=
  ((s.dropWhile Char.isWhitespace).reverse.dropWhile Char.isWhitespace).reverse

/-- The `SSE` interface of `sse.ts`: an event name and a JSON payload. -/
structure SSE where
  event : Str
  data : Json

/-- The JS emission guard `currentEvent.event && currentEvent.data`:
both fields of the in-progress `Partial<SSE>` record must be present and
truthy (a string is truthy iff nonempty).  Returns the completed event
when the guard passes. -/
def emitIfComplete : Option Str → Option Json → Option SSE
  | some e, some d => if e ≠ [] ∧ d.truthy then some ⟨e, d⟩ else none
  | _, _ => none

/-- The line loop of `parseSSE` (sse.ts lines 10-21) together with the
final flush (lines 24-26).  State: the optional `event` and `data` fields
of `currentEvent` and the accumulated `events` list.  A `data:` line whose
trimmed remainder fails to JSON-decode aborts the whole parse
(`JSON.parse` throws). -/
def parseSSEGo (pj : Str → Option Json) :
    List Str → Option Str → Option Json → List SSE → Except String (List SSE)
  | [], ev, da, acc =>
      match emitIfComplete ev da with
      | some e => .ok (acc ++ [e])
      | none => .ok acc
  | line :: rest, ev, da, acc =>
      if ("event:".toList).isPrefixOf line then
        parseSSEGo pj rest (some (jsTrim (line.drop 6))) da acc
      else if ("data:".toList).isPrefixOf line then
        match pj (jsTrim (line.drop 5)) with
        | some j => parseSSEGo pj rest ev (some j) acc
        | none => .error "MalformedEventError"
      else if line = [] then
        match emitIfComplete ev da with
        | some e => parseSSEGo pj rest none none (acc ++ [e])
        | none => parseSSEGo pj rest ev da acc
      else
        parseSSEGo pj rest ev da acc

/-- `parseSSE` from `sse.ts`: split the response body on `"\n"`, run the
line loop from an empty in-progress record, and flush a complete trailing
record. -/
def parseSSE (pj : Str → Option Json) (responseBody : Str) :
    Except String (List SSE) :=
  parseSSEGo pj (splitNl responseBody) none none []

/-- The test `match.type === "commit"` on one element of a `matches`
payload array.  Property access on `null` throws a `TypeError` (`none`);
on an object, `.type` is the field value (or `undefined` when absent); on
every other JSON value (boolean, number, string, array) `.type` is
`undefined`.  The strict comparison is true only for an object whose
`type` field is the string `"commit"`. -/
def isCommit : Json → Option Bool
  | .null => none
  | .obj fields =>
      match fields.lookup ("type".toList) with
      | some (.str s) => some (s = "commit".toList)
      | _ => some false
  | _ => some false

/-- JS `for (const match of event.data)`: the element sequence of a payload.
Arrays iterate their elements; strings iterate their characters (each a
one-character string); every other value is not iterable and makes the
loop throw a `TypeError`, modelled by `none`. -/
def iterElems : Json → Option (List Json)
  | .arr xs => some xs
  | .str s => some (s.map fun c => Json.str [c])
  | _ => none

/-- The inner loop `for (const match of ...) { if (match.type === "commit")
... }`: keep the commit-typed elements in order, failing (`none`) at the
first `null` element, whose property access throws. -/
def filterCommitElems : List Json → Option (List Json)
  | [] => some []
  | x :: xs =>
      match isCommit x with
      | none => none
      | some b =>
          match filterCommitElems xs with
          | some r => some (if b then x :: r else r)
          | none => none

/-- The result-filter loop of `searchCommits` (search.ts lines 75-89):
skip events whose name is not exactly `"matches"`, and from each retained
event's payload keep the elements whose `type` field is `"commit"`,
preserving order.  `none` models the `TypeError` thrown when a `matches`
payload is not iterable or contains a `null` element. -/
def commitResultsOf : List SSE → Option (List Json)
  | [] => some []
  | e :: rest =>
      if e.event = "matches".toList then
        match iterElems e.data with
        | some xs =>
            match filterCommitElems xs with
            | some kept =>
                match commitResultsOf rest with
                | some r => some (kept ++ r)
                | none => none
            | none => none
        | none => none
      else
        commitResultsOf rest

/-- An `event:` line carrying remainder `e` (the source trims the remainder,
so any leading space after the colon is immaterial). -/
def evLine (e : Str) : Str := "event:".toList ++ e

/-- A `data:` line carrying remainder `d`. -/
def daLine (d : Str) : Str := "data:".toList ++ d

/-- One blank-line-terminated SSE block: an `event:` line, a `data:` line
and the terminating blank line (wire format of spec §6). -/
def eventBlock (e d : Str) : Str :=
  evLine e ++ '\n' :: (daLine d ++ '\n' :: ['\n'])

/-- A buffer made of consecutive blank-line-terminated blocks. -/
def sseBuffer (blocks : List (Str × Str)) : Str :=
  (blocks.map fun p => eventBlock p.1 p.2).flatten

/-- The three lines a block contributes to the line split. -/
def blockLines (e d : Str) : List Str := [evLine e, daLine d, []]

/-- Serialization of events for the round-trip property (spec §8):
each event becomes an `event:` line, a `data:` line holding the encoded
payload, and a terminating blank line. -/
def serializeSSE (enc : Json → Str) (events : List SSE) : Str :=
  sseBuffer (events.map fun e => (e.event, enc e.data))

/-- A concrete JSON decoder used to exercise the parser on closed inputs.
It agrees with `JSON.parse` on the literals it covers and rejects
(`none`, i.e. throws) everything else, in particular `"{oops"`. -/
def pjW : Str → Option Json
  | ['0'] => some (.num 0)
  | ['1'] => some (.num 1)
  | ['2'] => some (.num 2)
  | ['n', 'u', 'l', 'l'] => some .null
  | ['f', 'a', 'l', 's', 'e'] => some (.bool false)
  | ['t', 'r', 'u', 'e'] => some (.bool true)
  | _ => none

/-- A concrete JSON encoder for the closed round-trip instances; it agrees
with `JSON.stringify` on the literals it covers and is a left inverse of
`pjW` there. -/
def encW : Json → Str
  | .null => "null".toList
  | .bool b => if b then "true".toList else "false".toList
  | .num n => if n = 0 then ['0'] else if n = 1 then ['1'] else ['2']
  | _ => []

/-! ## Line-splitting lemmas -/

/-- `splitNl` never returns the empty list. -/
theorem splitNl_ne_nil (s : Str) : splitNl s ≠ [] := by
  induction s with
  | nil => simp [splitNl]
  | cons c cs ih =>
      by_cases h : c = '\n'
      · simp [splitNl, h]
      · cases hs : splitNl cs with
        | nil => exact absurd hs ih
        | cons l ls => simp [splitNl, h, hs]

/-- A newline-free string splits to the single segment it is. -/
theorem splitNl_of_no_newline (l : Str) (h : '\n' ∉ l) : splitNl l = [l] := by
  induction l with
  | nil => rfl
  | cons c cs ih =>
      have hc : ¬ (c = '\n') := fun hc => h (hc ▸ List.mem_cons_self c cs)
      have hcs : '\n' ∉ cs := fun hm => h (List.mem_cons_of_mem c hm)
      simp only [splitNl, if_neg hc, ih hcs]

/-- Splitting strips the first newline: the newline-free prefix becomes the
first segment. -/
theorem splitNl_append_newline (l rest : Str) (h : '\n' ∉ l) :
    splitNl (l ++ '\n' :: rest) = l :: splitNl rest := by
  induction l with
  | nil => simp [splitNl]
  | cons c cs ih =>
      have hc : ¬ (c = '\n') := fun hc => h (hc ▸ List.mem_cons_self c cs)
      have hcs : '\n' ∉ cs := fun hm => h (List.mem_cons_of_mem c hm)
      simp only [List.cons_append, splitNl, if_neg hc, List.append_eq, ih hcs]

/-- The lines of one well-formed block followed by further text. -/
theorem splitNl_eventBlock_append (e d rest : Str)
    (he : '\n' ∉ e) (hd : '\n' ∉ d) :
    splitNl (eventBlock e d ++ rest) = evLine e :: daLine d :: [] :: splitNl rest := by
  have hev : '\n' ∉ evLine e := by
    intro hm
    rcases List.mem_append.mp hm with hm | hm
    · revert hm; decide
    · exact he hm
  have hda : '\n' ∉ daLine d := by
    intro hm
    rcases List.mem_append.mp hm with hm | hm
    · revert hm; decide
    · exact hd hm
  have hshape : eventBlock e d ++ rest
      = evLine e ++ '\n' :: (daLine d ++ '\n' :: ('\n' :: rest)) := by
    simp [eventBlock, List.append_assoc]
  rw [hshape, splitNl_append_newline _ _ hev, splitNl_append_newline _ _ hda]
  simp [splitNl]

/-- The lines of a buffer of well-formed blocks followed by further text. -/
theorem splitNl_sseBuffer_append (blocks : List (Str × Str)) (rest : Str)
    (h : ∀ b ∈ blocks, '\n' ∉ b.1 ∧ '\n' ∉ b.2) :
    splitNl (sseBuffer blocks ++ rest)
      = (blocks.flatMap fun b => blockLines b.1 b.2) ++ splitNl rest := by
  induction blocks with
  | nil => simp [sseBuffer]
  | cons b bs ih =>
      have hb := h b (List.mem_cons_self b bs)
      have hshape : sseBuffer (b :: bs) ++ rest = eventBlock b.1 b.2 ++ (sseBuffer bs ++ rest) := by
        simp [sseBuffer, List.append_assoc]
      rw [hshape, splitNl_eventBlock_append _ _ _ hb.1 hb.2,
        ih fun x hx => h x (List.mem_cons_of_mem b hx)]
      simp [blockLines]

/-! ## Prefix-test and slicing lemmas for the two field keys -/

/-- An `event:` line passes the `"event:"` prefix test. -/
theorem evKey_prefix_evLine (e : Str) : ['e', 'v', 'e', 'n', 't', ':'] <+: evLine e :=
  ⟨e, rfl⟩

/-- A `data:` line passes the `"data:"` prefix test. -/
theorem daKey_prefix_daLine (d : Str) : ['d', 'a', 't', 'a', ':'] <+: daLine d :=
  ⟨d, rfl⟩

/-- A `data:` line fails the `"event:"` prefix test (its first character is
`'d'`, not `'e'`). -/
theorem evKey_not_prefix_daLine (d : Str) :
    ¬ (['e', 'v', 'e', 'n', 't', ':'] <+: daLine d) := by
  rintro ⟨t, ht⟩
  have hh := congrArg List.head? ht
  simp [daLine] at hh

/-- Dropping the six characters of `"event:"` leaves the remainder. -/
theorem evLine_drop_six (e : Str) : (evLine e).drop 6 = e := by
  rw [show evLine e = "event:".toList ++ e from rfl,
    List.drop_append_of_le_length (by decide)]
  rfl

/-- Dropping the five characters of `"data:"` leaves the remainder. -/
theorem daLine_drop_five (d : Str) : (daLine d).drop 5 = d := by
  rw [show daLine d = "data:".toList ++ d from rfl,
    List.drop_append_of_le_length (by decide)]
  rfl

/-! ## Single-line step lemmas for the parser loop -/

/-- End of input: flush the in-progress record when complete. -/
theorem parseSSEGo_nil (pj : Str → Option Json) (ev : Option Str) (da : Option Json)
    (acc : List SSE) :
    parseSSEGo pj [] ev da acc
      = match emitIfComplete ev da with
        | some e => .ok (acc ++ [e])
        | none => .ok acc := by
  simp [parseSSEGo]

/-- An `event:` line stores the trimmed remainder in the in-progress record. -/
theorem parseSSEGo_event_line (pj : Str → Option Json) (e : Str) (rest : List Str)
    (ev : Option Str) (da : Option Json) (acc : List SSE) :
    parseSSEGo pj (evLine e :: rest) ev da acc
      = parseSSEGo pj rest (some (jsTrim e)) da acc := by
  simp [parseSSEGo, evKey_prefix_evLine, evLine_drop_six]

/-- A `data:` line JSON-decodes the trimmed remainder; decoding failure
aborts the whole parse. -/
theorem parseSSEGo_data_line (pj : Str → Option Json) (d : Str) (rest : List Str)
    (ev : Option Str) (da : Option Json) (acc : List SSE) :
    parseSSEGo pj (daLine d :: rest) ev da acc
      = match pj (jsTrim d) with
        | some j => parseSSEGo pj rest ev (some j) acc
        | none => .error "MalformedEventError" := by
  simp [parseSSEGo, evKey_not_prefix_daLine, daKey_prefix_daLine, daLine_drop_five]

/-- A blank line emits the in-progress record when complete and otherwise
leaves it untouched. -/
theorem parseSSEGo_blank_line (pj : Str → Option Json) (rest : List Str)
    (ev : Option Str) (da : Option Json) (acc : List SSE) :
    parseSSEGo pj ([] :: rest) ev da acc
      = match emitIfComplete ev da with
        | some e => parseSSEGo pj rest none none (acc ++ [e])
        | none => parseSSEGo pj rest ev da acc := by
  simp [parseSSEGo]

/-- The emission guard passes for a nonempty event name and truthy data. -/
theorem emitIfComplete_of_truthy (e : Str) (j : Json) (he : e ≠ []) (hj : j.truthy = true) :
    emitIfComplete (some e) (some j) = some ⟨e, j⟩ := by
  simp [emitIfComplete, he, hj]

/-- The emission guard fails for an empty event name or falsy data. -/
theorem emitIfComplete_of_falsy (e : Str) (j : Json) (h : e = [] ∨ j.truthy = false) :
    emitIfComplete (some e) (some j) = none := by
  rcases h with h | h <;> simp [emitIfComplete, h]

/-! ## Whole-block and whole-buffer lemmas -/

/-- Processing one well-formed block from a clean in-progress record emits
exactly its event and returns to a clean record. -/
theorem parseSSEGo_block (pj : Str → Option Json) (e d : Str) (j : Json)
    (rest : List Str) (acc : List SSE)
    (hd : pj (jsTrim d) = some j) (he : jsTrim e ≠ []) (hj : j.truthy = true) :
    parseSSEGo pj (evLine e :: daLine d :: [] :: rest) none none acc
      = parseSSEGo pj rest none none (acc ++ [⟨jsTrim e, j⟩]) := by
  rw [parseSSEGo_event_line, parseSSEGo_data_line, hd]
  dsimp only
  rw [parseSSEGo_blank_line, emitIfComplete_of_truthy _ _ he hj]

/-- Processing a run of well-formed blocks from a clean record appends their
events in input order and returns to a clean record. -/
theorem parseSSEGo_blocks (pj : Str → Option Json) (blocks : List (Str × Str × Json))
    (rest : List Str) (acc : List SSE)
    (h : ∀ b ∈ blocks,
      jsTrim b.1 ≠ [] ∧ pj (jsTrim b.2.1) = some b.2.2 ∧ b.2.2.truthy = true) :
    parseSSEGo pj ((blocks.flatMap fun b => blockLines b.1 b.2.1) ++ rest) none none acc
      = parseSSEGo pj rest none none (acc ++ blocks.map fun b => ⟨jsTrim b.1, b.2.2⟩) := by
  induction blocks generalizing acc with
  | nil => simp
  | cons b bs ih =>
      obtain ⟨he, hd, hj⟩ := h b (List.mem_cons_self b bs)
      rw [List.flatMap_cons, List.append_assoc,
        show blockLines b.1 b.2.1 ++ ((bs.flatMap fun x => blockLines x.1 x.2.1) ++ rest)
          = evLine b.1 :: daLine b.2.1
              :: [] :: ((bs.flatMap fun x => blockLines x.1 x.2.1) ++ rest) from rfl,
        parseSSEGo_block pj _ _ _ _ _ hd he hj,
        ih _ (fun x hx => h x (List.mem_cons_of_mem b hx))]
      simp

/-- Parsing a buffer of well-formed truthy blocks yields exactly their
events, in input order. -/
theorem parseSSE_sseBuffer (pj : Str → Option Json) (blocks : List (Str × Str × Json))
    (h : ∀ b ∈ blocks, '\n' ∉ b.1 ∧ '\n' ∉ b.2.1 ∧ jsTrim b.1 ≠ [] ∧
      pj (jsTrim b.2.1) = some b.2.2 ∧ b.2.2.truthy = true) :
    parseSSE pj (sseBuffer (blocks.map fun b => (b.1, b.2.1)))
      = .ok (blocks.map fun b => ⟨jsTrim b.1, b.2.2⟩) := by
  have hsplit := splitNl_sseBuffer_append (blocks.map fun b => (b.1, b.2.1)) []
    (by
      intro x hx
      rw [List.mem_map] at hx
      obtain ⟨b, hb, rfl⟩ := hx
      exact ⟨(h b hb).1, (h b hb).2.1⟩)
  rw [List.append_nil] at hsplit
  have hlines : (blocks.map fun b => (b.1, b.2.1)).flatMap (fun b => blockLines b.1 b.2)
      = blocks.flatMap fun b => blockLines b.1 b.2.1 := by
    rw [List.flatMap_map]
  unfold parseSSE
  rw [hsplit, hlines, show splitNl [] = [[]] from rfl,
    parseSSEGo_blocks pj blocks [[]] []
      (fun b hb => ⟨(h b hb).2.2.1, (h b hb).2.2.2.1, (h b hb).2.2.2.2⟩),
    parseSSEGo_blank_line]
  simp [emitIfComplete, parseSSEGo_nil]

/-- The `"event:"` key contains no newline, so an `event:` line is
newline-free iff its remainder is. -/
theorem newline_not_mem_evLine (e : Str) (he : '\n' ∉ e) : '\n' ∉ evLine e := by
  intro hm
  rcases List.mem_append.mp hm with hm | hm
  · revert hm; decide
  · exact he hm

/-- The `"data:"` key contains no newline, so a `data:` line is
newline-free iff its remainder is. -/
theorem newline_not_mem_daLine (d : Str) (hd : '\n' ∉ d) : '\n' ∉ daLine d := by
  intro hm
  rcases List.mem_append.mp hm with hm | hm
  · revert hm; decide
  · exact hd hm

/-- A line that passes the `"data:"` prefix test cannot also pass the
`"event:"` prefix test, so it is always processed as a `data:` line. -/
theorem evKey_not_prefix_of_daKey_prefix (l : Str)
    (h : ("data:".toList).isPrefixOf l = true) :
    ¬ (("event:".toList).isPrefixOf l = true) := by
  intro h'
  obtain ⟨t, rfl⟩ := List.isPrefixOf_iff_prefix.mp h
  exact evKey_not_prefix_daLine t (List.isPrefixOf_iff_prefix.mp h')

/-- Any buffer containing a `data:` line whose trimmed remainder fails to
decode makes the loop return the `MalformedEventError` failure, from any
starting state. -/
theorem parseSSEGo_error_of_bad_data (pj : Str → Option Json) (lines : List Str) :
    ∀ (ev : Option Str) (da : Option Json) (acc : List SSE),
    (∃ l ∈ lines, ("data:".toList).isPrefixOf l = true ∧ pj (jsTrim (l.drop 5)) = none) →
    parseSSEGo pj lines ev da acc = .error "MalformedEventError" := by
  induction lines with
  | nil =>
      rintro ev da acc ⟨l, hl, -⟩
      exact absurd hl (List.not_mem_nil l)
  | cons line rest ih =>
      rintro ev da acc ⟨l, hl, hpfx, hbad⟩
      rcases List.mem_cons.mp hl with rfl | hl2
      · obtain ⟨t, rfl⟩ := List.isPrefixOf_iff_prefix.mp hpfx
        show parseSSEGo pj (daLine t :: rest) ev da acc = .error "MalformedEventError"
        rw [show jsTrim (("data:".toList ++ t).drop 5) = jsTrim t
            from congrArg jsTrim (daLine_drop_five t)] at hbad
        rw [parseSSEGo_data_line, hbad]
      · by_cases h1 : ("event:".toList).isPrefixOf line = true
        · obtain ⟨e, rfl⟩ := List.isPrefixOf_iff_prefix.mp h1
          show parseSSEGo pj (evLine e :: rest) ev da acc = .error "MalformedEventError"
          rw [parseSSEGo_event_line]
          exact ih _ _ _ ⟨l, hl2, hpfx, hbad⟩
        · by_cases h2 : ("data:".toList).isPrefixOf line = true
          · obtain ⟨t, rfl⟩ := List.isPrefixOf_iff_prefix.mp h2
            show parseSSEGo pj (daLine t :: rest) ev da acc = .error "MalformedEventError"
            rw [parseSSEGo_data_line]
            cases hp : pj (jsTrim t) with
            | some j =>
                dsimp only
                exact ih _ _ _ ⟨l, hl2, hpfx, hbad⟩
            | none => rfl
          · by_cases h3 : line = []
            · subst h3
              rw [parseSSEGo_blank_line]
              cases hE : emitIfComplete ev da with
              | some e =>
                  dsimp only
                  exact ih _ _ _ ⟨l, hl2, hpfx, hbad⟩
              | none =>
                  dsimp only
                  exact ih _ _ _ ⟨l, hl2, hpfx, hbad⟩
            · simp only [parseSSEGo]
              rw [if_neg h1, if_neg h2, if_neg h3]
              exact ih _ _ _ ⟨l, hl2, hpfx, hbad⟩

/-! ## Claim C1 -/

/-- C1 (counterexample): the buffer `"event: a\ndata: 0\n\n"` is a single
blank-line-terminated block with one `event:` line and one `data:` line
whose remainder `"0"` is valid JSON decoding to the number `0`, yet
`parseSSE` returns zero events instead of one: the emission guard
`currentEvent.event && currentEvent.data` drops the block because the JS
value `0` is falsy. -/
theorem parseSSE_one_valid_block_yields_zero_events :
    "event: a\ndata: 0\n\n".toList = eventBlock " a".toList " 0".toList
      ∧ pjW (jsTrim " 0".toList) = some (Json.num 0)
      ∧ parseSSE pjW ("event: a\ndata: 0\n\n".toList) = .ok [] :=
  ⟨rfl, rfl, rfl⟩

/-- C1 (amended): for every buffer of N blank-line-terminated blocks, each
containing one `event:` line whose remainder trims to a nonempty name and
one `data:` line whose remainder JSON-decodes to a truthy value, `parseSSE`
returns exactly the N SSEEvents in block order, each carrying the trimmed
event name and the decoded data of its block. -/
theorem parseSSE_wellFormed_blocks_in_order (pj : Str → Option Json)
    (blocks : List (Str × Str × Json))
    (h : ∀ b ∈ blocks, '\n' ∉ b.1 ∧ '\n' ∉ b.2.1 ∧ jsTrim b.1 ≠ [] ∧
      pj (jsTrim b.2.1) = some b.2.2 ∧ b.2.2.truthy = true) :
    parseSSE pj (sseBuffer (blocks.map fun b => (b.1, b.2.1)))
      = .ok (blocks.map fun b => ⟨jsTrim b.1, b.2.2⟩) :=
  parseSSE_sseBuffer pj blocks h

/-- C1 witness: a two-block buffer with truthy payloads parses to its two
events in order. -/
theorem parseSSE_wellFormed_blocks_in_order_witness :
    parseSSE pjW (sseBuffer [(" a".toList, " 1".toList), (" b".toList, " 2".toList)])
      = .ok [⟨"a".toList, Json.num 1⟩, ⟨"b".toList, Json.num 2⟩] :=
  parseSSE_wellFormed_blocks_in_order pjW
    [(" a".toList, " 1".toList, Json.num 1), (" b".toList, " 2".toList, Json.num 2)]
    (by
      intro b hb
      simp only [List.mem_cons, List.not_mem_nil, or_false] at hb
      rcases hb with rfl | rfl
      · exact ⟨by decide, by decide, by decide, rfl, rfl⟩
      · exact ⟨by decide, by decide, by decide, rfl, rfl⟩)

/-! ## Claim C2 -/

/-- C2 (counterexample): in `"event: a\n\ndata: 1\n\n"` the first block has
an `event:` line but no `data:` line.  At its terminating blank line the
in-progress record is not discarded: the stored name `"a"` survives and
combines with the `data:` line of the second (event-less) block, emitting
`{event := "a", data := 1}` — a field set in the incomplete block is
carried into a later block's emitted event, and the two incomplete blocks
together contribute one event rather than zero. -/
theorem parseSSE_incomplete_block_fields_carry_over :
    parseSSE pjW ("event: a\n\ndata: 1\n\n".toList)
      = .ok [⟨"a".toList, Json.num 1⟩] := rfl

/-- C2 (amended): at a blank line, when the in-progress record is
incomplete (the emission guard fails), no SSEEvent is emitted, but the
record is retained unchanged rather than discarded, so any field already
set persists into the processing of the following lines. -/
theorem parseSSEGo_blank_keeps_incomplete_record (pj : Str → Option Json)
    (rest : List Str) (ev : Option Str) (da : Option Json) (acc : List SSE)
    (h : emitIfComplete ev da = none) :
    parseSSEGo pj ([] :: rest) ev da acc = parseSSEGo pj rest ev da acc := by
  rw [parseSSEGo_blank_line, h]

/-- C2 witness: a blank line hit with only the event name set leaves the
loop state untouched. -/
theorem parseSSEGo_blank_keeps_incomplete_record_witness :
    parseSSEGo pjW ([] :: [daLine " 1".toList]) (some "a".toList) none []
      = parseSSEGo pjW [daLine " 1".toList] (some "a".toList) none [] :=
  parseSSEGo_blank_keeps_incomplete_record pjW [daLine " 1".toList]
    (some "a".toList) none [] rfl

/-! ## Claim C3 -/

/-- C3 (counterexample): the buffer `"event: a\ndata: 0"` ends in a block
with an `event:` line and a valid-JSON `data:` line and no terminating
blank line, yet the end-of-buffer flush emits nothing: the guard rejects
the falsy decoded value `0`, so `parseSSE` returns zero events instead of
the claimed one final SSEEvent. -/
theorem parseSSE_trailing_falsy_block_not_flushed :
    "event: a\ndata: 0".toList = evLine " a".toList ++ '\n' :: daLine " 0".toList
      ∧ pjW (jsTrim " 0".toList) = some (Json.num 0)
      ∧ parseSSE pjW ("event: a\ndata: 0".toList) = .ok [] :=
  ⟨rfl, rfl, rfl⟩

/-- C3 (amended): for every buffer made of well-formed truthy blocks
followed by a final block with an `event:` line whose remainder trims
nonempty and a `data:` line whose remainder decodes to a truthy value,
without a terminating blank line, `parseSSE` still emits the final block's
event after all lines are processed (end-of-buffer flush). -/
theorem parseSSE_trailing_block_flushed (pj : Str → Option Json)
    (pre : List (Str × Str × Json)) (e d : Str) (j : Json)
    (hpre : ∀ b ∈ pre, '\n' ∉ b.1 ∧ '\n' ∉ b.2.1 ∧ jsTrim b.1 ≠ [] ∧
      pj (jsTrim b.2.1) = some b.2.2 ∧ b.2.2.truthy = true)
    (he : '\n' ∉ e) (hd : '\n' ∉ d) (hE : jsTrim e ≠ [])
    (hj : pj (jsTrim d) = some j) (ht : j.truthy = true) :
    parseSSE pj
        (sseBuffer (pre.map fun b => (b.1, b.2.1)) ++ (evLine e ++ '\n' :: daLine d))
      = .ok ((pre.map fun b => ⟨jsTrim b.1, b.2.2⟩) ++ [⟨jsTrim e, j⟩]) := by
  unfold parseSSE
  rw [splitNl_sseBuffer_append _ _
      (by
        intro x hx
        rw [List.mem_map] at hx
        obtain ⟨b, hb, rfl⟩ := hx
        exact ⟨(hpre b hb).1, (hpre b hb).2.1⟩),
    splitNl_append_newline _ _ (newline_not_mem_evLine e he),
    splitNl_of_no_newline _ (newline_not_mem_daLine d hd),
    List.flatMap_map,
    parseSSEGo_blocks pj pre _ []
      (fun b hb => ⟨(hpre b hb).2.2.1, (hpre b hb).2.2.2.1, (hpre b hb).2.2.2.2⟩),
    parseSSEGo_event_line, parseSSEGo_data_line, hj]
  dsimp only
  rw [parseSSEGo_nil, emitIfComplete_of_truthy _ _ hE ht]
  simp

/-- C3 witness: one complete block followed by an unterminated final block
parses to both events, the second via the end-of-buffer flush. -/
theorem parseSSE_trailing_block_flushed_witness :
    parseSSE pjW
        (sseBuffer [(" a".toList, " 1".toList)]
          ++ (evLine " b".toList ++ '\n' :: daLine " 2".toList))
      = .ok [⟨"a".toList, Json.num 1⟩, ⟨"b".toList, Json.num 2⟩] :=
  parseSSE_trailing_block_flushed pjW [(" a".toList, " 1".toList, Json.num 1)]
    " b".toList " 2".toList (Json.num 2)
    (by
      intro b hb
      simp only [List.mem_cons, List.not_mem_nil, or_false] at hb
      subst hb
      exact ⟨by decide, by decide, by decide, rfl, rfl⟩)
    (by decide) (by decide) (by decide) rfl rfl

/-! ## Claim C4 -/

/-- C4 (confirmed): any buffer containing a `data:` line whose trimmed
remainder is not valid JSON makes `parseSSE` fail the whole parse with a
`MalformedEventError`; no event list is returned, not even for events that
were completed before the malformed line. -/
theorem parseSSE_malformed_data_fails_whole_parse (pj : Str → Option Json) (buf : Str)
    (h : ∃ l ∈ splitNl buf, ("data:".toList).isPrefixOf l = true
      ∧ pj (jsTrim (l.drop 5)) = none) :
    parseSSE pj buf = .error "MalformedEventError" :=
  parseSSEGo_error_of_bad_data pj (splitNl buf) none none [] h

/-- C4 witness: a buffer with one complete block and then a `data:` line
holding invalid JSON fails as a whole. -/
theorem parseSSE_malformed_data_fails_whole_parse_witness :
    parseSSE pjW ("event: a\ndata: 1\n\nevent: b\ndata: \x7boops\n\n".toList)
      = .error "MalformedEventError" :=
  parseSSE_malformed_data_fails_whole_parse pjW
    "event: a\ndata: 1\n\nevent: b\ndata: \x7boops\n\n".toList
    ⟨"data: \x7boops".toList, by decide, by decide, rfl⟩

/-! ## Claim C5 -/

/-- Only a `null` element makes the commit test throw. -/
theorem isCommit_eq_none_imp_null (x : Json) (h : isCommit x = none) : x = Json.null := by
  cases x with
  | null => rfl
  | bool b => exact absurd h (by simp [isCommit])
  | num n => exact absurd h (by simp [isCommit])
  | str s => exact absurd h (by simp [isCommit])
  | arr xs => exact absurd h (by simp [isCommit])
  | obj fields =>
      exfalso
      revert h
      simp only [isCommit]
      cases fields.lookup ("type".toList) with
      | none => simp
      | some v => cases v <;> simp

/-- On a null-free element list the inner loop succeeds and returns the
order-preserving sublist of commit-typed elements. -/
theorem filterCommitElems_of_no_null (xs : List Json) (h : ∀ x ∈ xs, x ≠ Json.null) :
    filterCommitElems xs = some (xs.filter fun x => (isCommit x).getD false) := by
  induction xs with
  | nil => rfl
  | cons x xs ih =>
      have hxs := ih fun y hy => h y (List.mem_cons_of_mem x hy)
      cases hc : isCommit x with
      | none =>
          exact absurd (isCommit_eq_none_imp_null x hc) (h x (List.mem_cons_self x xs))
      | some b =>
          cases b <;> simp [filterCommitElems, hc, hxs, List.filter_cons]

/-- C5 (confirmed): for events carrying array payloads free of `null`
elements (the claim presupposes heterogeneous search-result records, whose
`type` access does not throw), the result filter succeeds and returns
exactly the elements of the `data` arrays of events named `"matches"`
whose `type` field is `"commit"`, preserving the relative order of events
and of elements and performing no de-duplication; and on the three-event
example of spec §8 the output is exactly the single record
`{type:"commit", oid:"a"}`. -/
theorem commitResultsOf_keeps_ordered_commit_matches :
    (∀ events : List (Str × List Json),
      (∀ p ∈ events, p.1 = "matches".toList → ∀ x ∈ p.2, x ≠ Json.null) →
      commitResultsOf (events.map fun p => ⟨p.1, Json.arr p.2⟩)
        = some (((events.filter fun p => p.1 = "matches".toList).flatMap
            fun p => p.2).filter fun x => (isCommit x).getD false))
    ∧ commitResultsOf
        [⟨"matches".toList, Json.arr [Json.obj
            [("type".toList, Json.str "commit".toList),
             ("oid".toList, Json.str "a".toList)]]⟩,
         ⟨"other".toList, Json.arr [Json.obj
            [("type".toList, Json.str "commit".toList),
             ("oid".toList, Json.str "b".toList)]]⟩,
         ⟨"matches".toList, Json.arr [Json.obj
            [("type".toList, Json.str "file".toList),
             ("oid".toList, Json.str "c".toList)]]⟩]
      = some [Json.obj
          [("type".toList, Json.str "commit".toList),
           ("oid".toList, Json.str "a".toList)]] := by
  constructor
  · intro events
    induction events with
    | nil => intro _; rfl
    | cons p ps ih =>
        intro hnull
        have hps := ih fun q hq hm x hx => hnull q (List.mem_cons_of_mem p hq) hm x hx
        by_cases hp : p.1 = ['m', 'a', 't', 'c', 'h', 'e', 's']
        · have hels : ∀ x ∈ p.2, x ≠ Json.null :=
            fun x hx => hnull p (List.mem_cons_self p ps) hp x hx
          simp [commitResultsOf, iterElems, hp, filterCommitElems_of_no_null p.2 hels,
            hps, List.filter_cons, List.filter_append]
        · simp [commitResultsOf, hp, hps, List.filter_cons]
  · rfl

/-- C5 witness: one `matches` event holding one commit record filters to
exactly that record, via the general theorem at a null-free payload. -/
theorem commitResultsOf_keeps_ordered_commit_matches_witness :
    commitResultsOf [⟨"matches".toList, Json.arr [Json.obj
        [("type".toList, Json.str "commit".toList),
         ("oid".toList, Json.str "a".toList)]]⟩]
      = some [Json.obj
          [("type".toList, Json.str "commit".toList),
           ("oid".toList, Json.str "a".toList)]] :=
  commitResultsOf_keeps_ordered_commit_matches.1
    [("matches".toList, [Json.obj
        [("type".toList, Json.str "commit".toList),
         ("oid".toList, Json.str "a".toList)]])]
    (by
      intro p hp hm x hx
      simp only [List.mem_singleton] at hp
      subst hp
      simp only [List.mem_singleton] at hx
      subst hx
      exact fun h => Json.noConfusion h)
/-! ## Claim C6 -/

/-- C6 (counterexample): serializing the single synthetic event
`{event := "a", data := false}` (name/payload distinctness is vacuous for
K = 1) into `event:`/`data:` lines with a blank-line terminator and feeding
the buffer to `parseSSE` reproduces zero events, not the original one: the
falsy payload `false` fails the emission guard, so the round-trip does not
hold as claimed. -/
theorem serializeSSE_falsy_payload_breaks_roundtrip :
    pjW (jsTrim (encW (Json.bool false))) = some (Json.bool false)
      ∧ parseSSE pjW (serializeSSE encW [⟨"a".toList, Json.bool false⟩]) = .ok []
      ∧ parseSSE pjW (serializeSSE encW [⟨"a".toList, Json.bool false⟩])
          ≠ .ok [⟨"a".toList, Json.bool false⟩] := by
  refine ⟨rfl, rfl, fun h => ?_⟩
  rw [show parseSSE pjW (serializeSSE encW [⟨"a".toList, Json.bool false⟩])
      = .ok [] from rfl] at h
  simp at h

/-- C6 (amended): serializing K synthetic SSEEvents whose names are
newline-free, trim-invariant and nonempty and whose payloads are truthy,
encode without newlines and decode back to themselves, and feeding the
buffer to `parseSSE`, reproduces exactly those K events in order with
equal fields. -/
theorem parseSSE_serializeSSE_roundtrip (pj : Str → Option Json) (enc : Json → Str)
    (events : List SSE)
    (h : ∀ ev ∈ events, '\n' ∉ ev.event ∧ '\n' ∉ enc ev.data ∧
      jsTrim ev.event = ev.event ∧ ev.event ≠ [] ∧
      pj (jsTrim (enc ev.data)) = some ev.data ∧ ev.data.truthy = true) :
    parseSSE pj (serializeSSE enc events) = .ok events := by
  have key := parseSSE_sseBuffer pj (events.map fun ev => (ev.event, enc ev.data, ev.data))
    (by
      intro b hb
      rw [List.mem_map] at hb
      obtain ⟨ev, hev, rfl⟩ := hb
      obtain ⟨h1, h2, h3, h4, h5, h6⟩ := h ev hev
      exact ⟨h1, h2, by rw [h3]; exact h4, h5, h6⟩)
  rw [List.map_map, List.map_map] at key
  have hmap : (events.map fun ev => (⟨jsTrim ev.event, ev.data⟩ : SSE)) = events := by
    have hid : ∀ ev ∈ events, (⟨jsTrim ev.event, ev.data⟩ : SSE) = ev := by
      intro ev hev
      rw [(h ev hev).2.2.1]
    rw [List.map_congr_left hid]
    simp
  calc parseSSE pj (serializeSSE enc events)
      = .ok (events.map fun ev => (⟨jsTrim ev.event, ev.data⟩ : SSE)) := key
    _ = .ok events := by rw [hmap]

/-- C6 witness: two distinct events with truthy payloads round-trip through
serialization and parsing. -/
theorem parseSSE_serializeSSE_roundtrip_witness :
    parseSSE pjW (serializeSSE encW
        [⟨"a".toList, Json.num 1⟩, ⟨"b".toList, Json.num 2⟩])
      = .ok [⟨"a".toList, Json.num 1⟩, ⟨"b".toList, Json.num 2⟩] :=
  parseSSE_serializeSSE_roundtrip pjW encW
    [⟨"a".toList, Json.num 1⟩, ⟨"b".toList, Json.num 2⟩]
    (by
      intro ev hev
      simp only [List.mem_cons, List.not_mem_nil, or_false] at hev
      rcases hev with rfl | rfl
      · exact ⟨by decide, by decide, by decide, by decide, rfl, rfl⟩
      · exact ⟨by decide, by decide, by decide, by decide, rfl, rfl⟩)

/-! ## Claim C7 -/

/-- C7 (confirmed): the empty input buffer parses to the empty SSEEvent
sequence, and the result filter maps the empty event sequence to the empty
CommitSearchResult sequence. -/
theorem parseSSE_empty_buffer (pj : Str → Option Json) :
    parseSSE pj [] = .ok [] ∧ commitResultsOf [] = some [] :=
  ⟨rfl, rfl⟩

/-! ## Claim C8 -/

/-- JS `trim()` strips a trailing carriage return, so field remainders of
`\r\n`-terminated lines trim to the same value as their Unix counterparts. -/
theorem jsTrim_append_cr (s : Str) : jsTrim (s ++ ['\r']) = jsTrim s := by
  unfold jsTrim
  rw [List.dropWhile_append]
  by_cases h : (s.dropWhile Char.isWhitespace).isEmpty
  · rw [if_pos h, List.isEmpty_iff.mp h]
    rfl
  · rw [if_neg h]
    have hrev : (s.dropWhile Char.isWhitespace ++ ['\r']).reverse
        = '\r' :: (s.dropWhile Char.isWhitespace).reverse := by simp
    rw [hrev, List.dropWhile_cons]
    simp

/-- A line that matches neither field prefix and is nonempty is skipped,
leaving the loop state unchanged. -/
theorem parseSSEGo_other_line (pj : Str → Option Json) (line : Str) (rest : List Str)
    (ev : Option Str) (da : Option Json) (acc : List SSE)
    (h1 : ¬ (("event:".toList).isPrefixOf line = true))
    (h2 : ¬ (("data:".toList).isPrefixOf line = true))
    (h3 : line ≠ []) :
    parseSSEGo pj (line :: rest) ev da acc = parseSSEGo pj rest ev da acc := by
  simp only [parseSSEGo]
  rw [if_neg h1, if_neg h2, if_neg h3]

/-- C8 (counterexample): with Windows-style `\r\n` line endings the lines
do NOT fail the field prefix matches: `"event: a\r"` still passes the
`"event:"` prefix test and `"data: 1\r"` the `"data:"` one, and the
`\r\n`-terminated block `"event: a\r\ndata: 1\r\n\r\n"` yields one event
(`trim()` strips the trailing `'\r'` from the field values) instead of the
claimed zero. -/
theorem parseSSE_crlf_block_not_dropped :
    ("event:".toList).isPrefixOf "event: a\r".toList = true
      ∧ ("data:".toList).isPrefixOf "data: 1\r".toList = true
      ∧ parseSSE pjW ("event: a\r\ndata: 1\r\n\r\n".toList)
          = .ok [⟨"a".toList, Json.num 1⟩] :=
  ⟨rfl, rfl, rfl⟩

/-- C8 (amended): the parser splits on `"\n"` as the sole delimiter with no
`\r\n` normalization, so `\r\n` input leaves a trailing `'\r'` on every
line and a `"\r"` pseudo-blank line; but the field prefix matches still
succeed, `trim()` removes the trailing `'\r'` from both field values, the
`"\r"` line is skipped (it is not the empty string), and a well-formed
truthy `\r\n` block still yields its event at the final empty line. -/
theorem parseSSE_crlf_block_still_yields_event (pj : Str → Option Json)
    (e d : Str) (j : Json) (he : '\n' ∉ e) (hd : '\n' ∉ d)
    (hE : jsTrim e ≠ []) (hj : pj (jsTrim d) = some j) (ht : j.truthy = true) :
    splitNl (evLine e ++ '\r' :: '\n' :: (daLine d ++ '\r' :: '\n' :: '\r' :: ['\n']))
        = [evLine e ++ ['\r'], daLine d ++ ['\r'], ['\r'], []]
      ∧ parseSSE pj
          (evLine e ++ '\r' :: '\n' :: (daLine d ++ '\r' :: '\n' :: '\r' :: ['\n']))
        = .ok [⟨jsTrim e, j⟩] := by
  have hev' : '\n' ∉ evLine e ++ ['\r'] := by
    intro hm
    rcases List.mem_append.mp hm with hm | hm
    · exact newline_not_mem_evLine e he hm
    · revert hm; decide
  have hda' : '\n' ∉ daLine d ++ ['\r'] := by
    intro hm
    rcases List.mem_append.mp hm with hm | hm
    · exact newline_not_mem_daLine d hd hm
    · revert hm; decide
  have hsplit : splitNl (evLine e ++ '\r' :: '\n' :: (daLine d ++ '\r' :: '\n' :: '\r' :: ['\n']))
      = [evLine e ++ ['\r'], daLine d ++ ['\r'], ['\r'], []] := by
    rw [show evLine e ++ '\r' :: '\n' :: (daLine d ++ '\r' :: '\n' :: '\r' :: ['\n'])
        = (evLine e ++ ['\r'])
            ++ '\n' :: ((daLine d ++ ['\r']) ++ '\n' :: ('\r' :: ['\n'])) from by simp]
    rw [splitNl_append_newline _ _ hev', splitNl_append_newline _ _ hda']
    rfl
  refine ⟨hsplit, ?_⟩
  unfold parseSSE
  rw [hsplit,
    show evLine e ++ ['\r'] = evLine (e ++ ['\r']) from by simp [evLine],
    parseSSEGo_event_line, jsTrim_append_cr,
    show daLine d ++ ['\r'] = daLine (d ++ ['\r']) from by simp [daLine],
    parseSSEGo_data_line, jsTrim_append_cr, hj]
  dsimp only
  rw [parseSSEGo_other_line pj ['\r'] _ _ _ _ (by decide) (by decide) (by decide),
    parseSSEGo_blank_line, emitIfComplete_of_truthy _ _ hE ht]
  dsimp only
  rw [parseSSEGo_nil]
  rfl

/-- C8 witness: the `\r\n` block with name `"a"` and payload `1` parses to
its single event. -/
theorem parseSSE_crlf_block_still_yields_event_witness :
    parseSSE pjW (evLine " a".toList ++ '\r' :: '\n'
        :: (daLine " 1".toList ++ '\r' :: '\n' :: '\r' :: ['\n']))
      = .ok [⟨"a".toList, Json.num 1⟩] :=
  (parseSSE_crlf_block_still_yields_event pjW " a".toList " 1".toList (Json.num 1)
    (by decide) (by decide) (by decide) rfl rfl).2

/-! ## Claim C9 -/

/-- C9 (confirmed): a block with both an `event:` line and a valid-JSON
`data:` line whose event name trims to the empty string or whose data
decodes to a falsy value (`null`, `false`, `0`, `""`) is never emitted as
an SSEEvent — neither at its terminating blank line nor by the
end-of-buffer flush. -/
theorem parseSSE_falsy_block_never_emitted (pj : Str → Option Json)
    (e d : Str) (j : Json) (he : '\n' ∉ e) (hd : '\n' ∉ d)
    (hj : pj (jsTrim d) = some j)
    (hfalsy : jsTrim e = [] ∨ j.truthy = false) :
    parseSSE pj (eventBlock e d) = .ok []
      ∧ parseSSE pj (evLine e ++ '\n' :: daLine d) = .ok [] := by
  constructor
  · unfold parseSSE
    rw [show eventBlock e d = eventBlock e d ++ [] from (List.append_nil _).symm,
      splitNl_eventBlock_append e d [] he hd,
      show splitNl [] = [[]] from rfl,
      parseSSEGo_event_line, parseSSEGo_data_line, hj]
    dsimp only
    rw [parseSSEGo_blank_line, emitIfComplete_of_falsy _ _ hfalsy]
    dsimp only
    rw [parseSSEGo_blank_line, emitIfComplete_of_falsy _ _ hfalsy]
    dsimp only
    rw [parseSSEGo_nil, emitIfComplete_of_falsy _ _ hfalsy]
  · unfold parseSSE
    rw [splitNl_append_newline _ _ (newline_not_mem_evLine e he),
      splitNl_of_no_newline _ (newline_not_mem_daLine d hd),
      parseSSEGo_event_line, parseSSEGo_data_line, hj]
    dsimp only
    rw [parseSSEGo_nil, emitIfComplete_of_falsy _ _ hfalsy]

/-- C9 witness: the block with name `"a"` and payload `null` is emitted
neither with nor without its terminating blank line. -/
theorem parseSSE_falsy_block_never_emitted_witness :
    parseSSE pjW (eventBlock " a".toList " null".toList) = .ok []
      ∧ parseSSE pjW (evLine " a".toList ++ '\n' :: daLine " null".toList) = .ok [] :=
  parseSSE_falsy_block_never_emitted pjW " a".toList " null".toList Json.null
    (by decide) (by decide) rfl (Or.inr rfl)

/-! ## Claim C10 -/

/-- One loop step on a nonempty line list either recurses on the tail with
some state or fails with the JSON-decoding error. -/
theorem parseSSEGo_cons_cases (pj : Str → Option Json) (line : Str) (rest : List Str)
    (ev : Option Str) (da : Option Json) (acc : List SSE) :
    (∃ ev' da' acc',
        parseSSEGo pj (line :: rest) ev da acc = parseSSEGo pj rest ev' da' acc')
      ∨ parseSSEGo pj (line :: rest) ev da acc = .error "MalformedEventError" := by
  simp only [parseSSEGo]
  by_cases h1 : ("event:".toList).isPrefixOf line = true
  · rw [if_pos h1]
    exact Or.inl ⟨_, _, _, rfl⟩
  · rw [if_neg h1]
    by_cases h2 : ("data:".toList).isPrefixOf line = true
    · rw [if_pos h2]
      cases pj (jsTrim (line.drop 5)) with
      | none => exact Or.inr rfl
      | some j => exact Or.inl ⟨_, _, _, rfl⟩
    · rw [if_neg h2]
      by_cases h3 : line = []
      · rw [if_pos h3]
        cases emitIfComplete ev da with
        | none => exact Or.inl ⟨_, _, _, rfl⟩
        | some e => exact Or.inl ⟨_, _, _, rfl⟩
      · rw [if_neg h3]
        exact Or.inl ⟨_, _, _, rfl⟩

/-- From any state, the loop over a finite line list returns either an
event list or the `MalformedEventError` failure. -/
theorem parseSSEGo_ok_or_malformed (pj : Str → Option Json) (lines : List Str) :
    ∀ (ev : Option Str) (da : Option Json) (acc : List SSE),
    (∃ events, parseSSEGo pj lines ev da acc = .ok events)
      ∨ parseSSEGo pj lines ev da acc = .error "MalformedEventError" := by
  induction lines with
  | nil =>
      intro ev da acc
      rw [parseSSEGo_nil]
      cases emitIfComplete ev da with
      | none => exact Or.inl ⟨_, rfl⟩
      | some e => exact Or.inl ⟨_, rfl⟩
  | cons line rest ih =>
      intro ev da acc
      rcases parseSSEGo_cons_cases pj line rest ev da acc with ⟨ev', da', acc', hstep⟩ | herr
      · rw [hstep]
        exact ih ev' da' acc'
      · exact Or.inr herr

/-- C10 (confirmed): the embedding of `parseSSE` is a total function — it
makes one pass over the finite list of lines obtained by splitting on
`"\n"`, and for every finite buffer and decoder it either returns an event
list or fails with the JSON-decoding error, never anything else. -/
theorem parseSSE_total (pj : Str → Option Json) (buf : Str) :
    (∃ events, parseSSE pj buf = .ok events)
      ∨ parseSSE pj buf = .error "MalformedEventError" :=
  parseSSEGo_ok_or_malformed pj (splitNl buf) none none []
